import Mathlib

/-!
Verification development for the session-pool and retry subsystems of the
python-spanner client (src/google/cloud/spanner_v1/pool.py and the
run_in_transaction retry loop exercised by src/tests/unit/test_session.py).

Times are modelled as natural-number ticks; the retry executor uses rationals
for its delay arithmetic.  Backend state (which session ids exist server-side,
and the id counter for freshly created sessions) is passed explicitly.
-/

namespace Spanner

/-- A transaction object bound to a session: Transaction.committed is a
timestamp-or-None in the source, modelled as a Bool; rolled_back is a Bool. -/
structure Txn where
  committed : Bool
  rolledBack : Bool
deriving Repr, DecidableEq

/-- A session handle: backend-assigned identity, last-use timestamp, and the
optional transaction attached to it (session._transaction). -/
structure Session where
  id : Nat
  lastUse : Nat
  transaction : Option Txn
deriving Repr, DecidableEq

/-- Backend state visible to the pool code: the set of session ids that
currently exist server-side, and the counter from which fresh ids are
assigned (ids are never reassigned). -/
structure Backend where
  nextId : Nat
  live : List Nat
deriving Repr, DecidableEq

/-- session.exists(): authoritative existence probe against the backend. -/
def Backend.sessionExists (b : Backend) (sid : Nat) : Bool :=
  b.live.contains sid

/-- pool._new_session() followed by session.create(): the backend assigns a
fresh id and registers it as live. -/
def Backend.createSession (b : Backend) (now : Nat) : Session × Backend :=
  (⟨b.nextId, now, none⟩, ⟨b.nextId + 1, b.nextId :: b.live⟩)

/-- Error kinds raised by the pool code: queue.Full, queue.Empty, and the
backend NotFound exception. -/
inductive PoolError where
  | queueFull
  | queueEmpty
  | notFound
deriving Repr, DecidableEq

/-- session.delete(): removes the session server-side, raising NotFound when
it is already gone. -/
def Session.delete (s : Session) (b : Backend) : Except PoolError Backend :=
  if b.live.contains s.id then .ok ⟨b.nextId, b.live.erase s.id⟩
  else .error .notFound

/-- session.ping(): raises NotFound when the session has been reaped
server-side. -/
def Session.pingRPC (s : Session) (b : Backend) : Except PoolError Unit :=
  if b.live.contains s.id then .ok () else .error .notFound

/-- queue.LifoQueue(maxsize): items with the head of the list being the most
recently put element. -/
structure LifoQueue where
  maxsize : Nat
  items : List Session
deriving Repr, DecidableEq

/-- LifoQueue.put_nowait: raises queue.Full when at capacity (a maxsize of 0
means unbounded, as in the Python queue module), else pushes. -/
def LifoQueue.putNowait (q : LifoQueue) (s : Session) : Except PoolError LifoQueue :=
  if 0 < q.maxsize ∧ q.maxsize ≤ q.items.length then .error .queueFull
  else .ok ⟨q.maxsize, s :: q.items⟩

/-- LifoQueue.get_nowait: raises queue.Empty when empty, else pops the most
recently put element. -/
def LifoQueue.getNowait (q : LifoQueue) : Except PoolError (Session × LifoQueue) :=
  match q.items with
  | [] => .error .queueEmpty
  | s :: rest => .ok (s, ⟨q.maxsize, rest⟩)

/-! ## FixedSizePool -/

/-- FixedSizePool state: fixed size, max-age threshold (ticks), and the LIFO
stack of pooled sessions. -/
structure FixedSizePool where
  size : Nat
  maxAge : Nat
  sessions : LifoQueue
deriving Repr, DecidableEq

/-- FixedSizePool.get (pool.py lines 290-342), the non-blocking successful
path: pop the most recently returned session; when its idle age
(now - last_use_time) is at least max_age AND the backend existence probe
fails, discard it and return a freshly created session instead.  The
blocking wait and the queue.Empty timeout path are modelled by the error
case on an empty queue.  The second inner exists() call in the source only
feeds a span event and is omitted. -/
def FixedSizePool.get (p : FixedSizePool) (now : Nat) (b : Backend) :
    Except PoolError (Session × FixedSizePool × Backend) :=
  match p.sessions.items with
  | [] => .error .queueEmpty
  | s :: rest =>
    if p.maxAge ≤ now - s.lastUse ∧ b.sessionExists s.id = false then
      let created := b.createSession now
      .ok (created.1, ⟨p.size, p.maxAge, ⟨p.sessions.maxsize, rest⟩⟩, created.2)
    else
      .ok (s, ⟨p.size, p.maxAge, ⟨p.sessions.maxsize, rest⟩⟩, b)

/-- FixedSizePool.put (pool.py lines 344-354): put_nowait, raising queue.Full
at capacity. -/
def FixedSizePool.put (p : FixedSizePool) (s : Session) : Except PoolError FixedSizePool :=
  match p.sessions.putNowait s with
  | .ok q => .ok ⟨p.size, p.maxAge, q⟩
  | .error e => .error e

/-- FixedSizePool.clear (pool.py lines 356-365): drain the queue, calling
session.delete() on each session.  The source has no NotFound handler here,
so a NotFound from delete propagates.  Parametrised by the drained item
list (the queue is drained in LIFO order). -/
def FixedSizePool.clear (b : Backend) : List Session → Except PoolError Backend
  | [] => .ok b
  | s :: rest =>
    match s.delete b with
    | .ok b2 => FixedSizePool.clear b2 rest
    | .error e => .error e

/-- Sequence of FixedSizePool.put calls, in list order. -/
def FixedSizePool.putAll (p : FixedSizePool) : List Session → Except PoolError FixedSizePool
  | [] => .ok p
  | s :: rest =>
    match p.put s with
    | .ok p2 => p2.putAll rest
    | .error e => .error e

/-- Sequence of n FixedSizePool.get calls, collecting the returned sessions
in order. -/
def FixedSizePool.getAll (p : FixedSizePool) (now : Nat) (b : Backend) :
    Nat → Except PoolError (List Session × FixedSizePool × Backend)
  | 0 => .ok ([], p, b)
  | n + 1 =>
    match p.get now b with
    | .ok (s, p2, b2) =>
      match p2.getAll now b2 n with
      | .ok (l, p3, b3) => .ok (s :: l, p3, b3)
      | .error e => .error e
    | .error e => .error e

/-! ## BurstyPool -/

/-- BurstyPool state: target size and the LIFO stack (maxsize = target_size). -/
structure BurstyPool where
  targetSize : Nat
  sessions : LifoQueue
deriving Repr, DecidableEq

/-- BurstyPool.put (pool.py lines 444-460): put_nowait; on queue.Full the
returned session is deleted instead, and a NotFound from the delete is
absorbed (pass). -/
def BurstyPool.put (p : BurstyPool) (s : Session) (b : Backend) :
    Except PoolError (BurstyPool × Backend) :=
  match p.sessions.putNowait s with
  | .ok q => .ok (⟨p.targetSize, q⟩, b)
  | .error _ =>
    match s.delete b with
    | .ok b2 => .ok (p, b2)
    | .error .notFound => .ok (p, b)
    | .error e => .error e

/-- BurstyPool.clear (pool.py lines 462-471): identical drain-and-delete loop
to FixedSizePool.clear, again with no NotFound handler. -/
def BurstyPool.clear (b : Backend) : List Session → Except PoolError Backend
  | [] => .ok b
  | s :: rest =>
    match s.delete b with
    | .ok b2 => BurstyPool.clear b2 rest
    | .error e => .error e

/-! ## PingingPool

The priority queue of (ping_after, session) pairs is modelled as a list kept
sorted by due time ascending; insertion is stable (a new entry goes after
existing entries with the same key), matching the min-heap plus
insertion-order tie-break of the source. -/

/-- Insert an entry into the due-time-sorted queue (put_nowait without the
capacity check; capacity where relevant is checked by the callers). -/
def pqInsert (e : Nat × Session) : List (Nat × Session) → List (Nat × Session)
  | [] => [e]
  | f :: rest => if f.1 ≤ e.1 then f :: pqInsert e rest else e :: f :: rest

/-- PingingPool state: fixed size, ping interval delta (ticks), and the
due-time-sorted queue. -/
structure PingingPool where
  size : Nat
  delta : Nat
  sessions : List (Nat × Session)
deriving Repr, DecidableEq

/-- PingingPool.put (pool.py lines 653-663): put_nowait of
(now + ping_interval, session), raising queue.Full at capacity. -/
def PingingPool.put (p : PingingPool) (now : Nat) (s : Session) :
    Except PoolError PingingPool :=
  if 0 < p.size ∧ p.size ≤ p.sessions.length then .error .queueFull
  else .ok ⟨p.size, p.delta, pqInsert (now + p.delta, s) p.sessions⟩

/-- PingingPool.clear (pool.py lines 665-673): drain-and-delete over the
(due, session) pairs, with no NotFound handler. -/
def PingingPool.clear (b : Backend) : List (Nat × Session) → Except PoolError Backend
  | [] => .ok b
  | e :: rest =>
    match e.2.delete b with
    | .ok b2 => PingingPool.clear b2 rest
    | .error err => .error err

/-- Result of one PingingPool.ping() call: the queue and backend afterwards,
and the number of session.ping() and session.create() backend calls made. -/
structure PingResult where
  queue : List (Nat × Session)
  backend : Backend
  pings : Nat
  creates : Nat
deriving Repr, DecidableEq

/-- The while-True loop of PingingPool.ping (pool.py lines 675-696): pop the
earliest-due entry; stop on an empty queue; when the entry is not yet due
(ping_after > now), push it back unchanged and stop; otherwise ping the
session, replace it via _new_session/create on NotFound, re-queue with due
time now + delta, and loop.  The loop is given explicit fuel because with
ping_interval = 0 the source loop need not terminate; re-queueing after a
pop can never overflow the queue, so no capacity check arises.  Fuel
exhaustion returns the state reached so far. -/
def pingLoop (now delta : Nat) :
    Nat → Backend → List (Nat × Session) → Nat → Nat → PingResult
  | 0, b, q, pings, creates => ⟨q, b, pings, creates⟩
  | _ + 1, b, [], pings, creates => ⟨[], b, pings, creates⟩
  | fuel + 1, b, (pingAfter, s) :: rest, pings, creates =>
    if now < pingAfter then ⟨pqInsert (pingAfter, s) rest, b, pings, creates⟩
    else
      match s.pingRPC b with
      | .ok _ => pingLoop now delta fuel b (pqInsert (now + delta, s) rest) (pings + 1) creates
      | .error _ =>
        let created := b.createSession now
        pingLoop now delta fuel created.2 (pqInsert (now + delta, created.1) rest)
          (pings + 1) (creates + 1)

/-- PingingPool.ping entry point. -/
def PingingPool.ping (p : PingingPool) (fuel now : Nat) (b : Backend) : PingResult :=
  pingLoop now p.delta fuel b p.sessions 0 0

/-! ## TransactionPingingPool -/

/-- session.transaction(): attach a fresh (un-begun) transaction object. -/
def Session.withFreshTxn (s : Session) : Session :=
  ⟨s.id, s.lastUse, some ⟨false, false⟩⟩

/-- TransactionPingingPool state: the PingingPool fields plus the unbounded
pending-begin FIFO (queue.Queue() with maxsize 0). -/
structure TransactionPingingPool where
  size : Nat
  delta : Nat
  sessions : List (Nat × Session)
  pending : List Session
deriving Repr, DecidableEq

/-- TransactionPingingPool.put (pool.py lines 770-788): first raises
queue.Full when the ping queue is at capacity; only then inspects the
transaction — when it is absent, committed, or rolled back, a fresh
transaction is attached and the session goes to the pending FIFO, otherwise
it is re-queued like PingingPool.put. -/
def TransactionPingingPool.put (p : TransactionPingingPool) (now : Nat) (s : Session) :
    Except PoolError TransactionPingingPool :=
  if 0 < p.size ∧ p.size ≤ p.sessions.length then .error .queueFull
  else
    match s.transaction with
    | none => .ok ⟨p.size, p.delta, p.sessions, p.pending ++ [s.withFreshTxn]⟩
    | some t =>
      if t.committed || t.rolledBack then
        .ok ⟨p.size, p.delta, p.sessions, p.pending ++ [s.withFreshTxn]⟩
      else
        .ok ⟨p.size, p.delta, pqInsert (now + p.delta, s) p.sessions, p.pending⟩

/-! ## SessionCheckout and with-statement semantics -/

/-- An abstract pool as seen by SessionCheckout: pool.get may fail (raise),
pool.put transforms the pool state. -/
structure PoolOps (σ : Type) where
  get : σ → Option (Session × σ)
  put : Session → σ → σ

/-- A context manager over pool state σ yielding a resource ρ on entry. -/
structure ContextManager (σ ρ : Type) where
  enter : σ → Option (ρ × σ)
  exit : ρ → σ → σ

/-- Python with-statement semantics for a manager whose exit method returns a
falsy value: when enter raises, the body never runs; when enter succeeds,
the body runs and exit runs on every leaving path, after which a body
exception propagates unchanged. -/
def withStmt {σ ρ α ε : Type} (cm : ContextManager σ ρ) (st : σ)
    (body : ρ → Except ε α) : Option (Except ε α × σ) :=
  match cm.enter st with
  | none => none
  | some (r, st1) =>
    match body r with
    | .ok a => some (.ok a, cm.exit r st1)
    | .error e => some (.error e, cm.exit r st1)

/-- SessionCheckout (pool.py lines 797-823): enter calls pool.get, exit calls
pool.put with the stored session and ignores any exception info. -/
def SessionCheckout {σ : Type} (p : PoolOps σ) : ContextManager σ Session :=
  ⟨p.get, fun s st => p.put s st⟩

/-! ## RetryExecutor (session.run_in_transaction)

The source file google/cloud/spanner_v1/session.py is not part of src/; only
its unit tests are.  The executor below is therefore modelled from the spec
(section 4.7) and pinned to the behaviour the repository tests assert. -/

/-- A structured retry hint carried by an Aborted failure
(google.rpc.retryinfo-bin: Duration seconds + nanos). -/
structure RetryHint where
  seconds : Nat
  nanos : Nat
deriving Repr, DecidableEq

/-- Delay derived from a retry hint: retry_seconds + retry_nanos / 1e9. -/
def RetryHint.delay (h : RetryHint) : ℚ :=
  (h.seconds : ℚ) + (h.nanos : ℚ) / 1000000000

/-- What one attempt of the user callback plus commit does.  runAbort means
the callback raised Aborted; begunInRun records whether the callback had
already begun the transaction on the backend before raising (an explicit
transaction.begin() or a first transactional RPC), which is what decides
whether that attempt issued a begin-transaction call.  commitAbort and
success reach the commit step, and an attempt that reaches commit always
issues exactly one begin-transaction call (either during the callback or
at commit time for a mutations-only transaction, as the request ids in
test_run_in_transaction_w_callback_raises_abort_wo_metadata show). -/
inductive AttemptOutcome where
  | runAbort (begunInRun : Bool) (hint : Option RetryHint)
  | commitAbort (hint : Option RetryHint)
  | success
deriving Repr, DecidableEq

/-- Terminal outcome of a run_in_transaction invocation. -/
inductive ExecOutcome where
  | committed
  | abortedDeadline (hint : Option RetryHint)
  | noScript
deriving Repr, DecidableEq

/-- Observable counters of one run_in_transaction invocation: callback
invocations, backend begin-transaction calls, the delays passed to
time.sleep in order, and the terminal outcome. -/
structure ExecStats where
  callbackCalls : Nat
  beginCalls : Nat
  sleeps : List ℚ
  outcome : ExecOutcome
deriving Repr, DecidableEq

/-- Modelled from the spec: the abort-handling step of the retry loop
(spec section 4.7, the _delay_until_retry helper exercised by
test_run_in_transaction_w_abort_w_retry_metadata and
test_run_in_transaction_w_abort_w_retry_metadata_deadline).  now is the
wall-clock sample taken on handling the abort; when now has reached the
deadline the Aborted failure is re-raised unmodified without sleeping;
otherwise the delay is the hint value retry_seconds + retry_nanos / 1e9, or
the attempt-indexed fallback when no hint is present; the deadline test in
the repository additionally pins a pre-sleep check re-raising when
now + delay would overshoot the deadline. -/
inductive DelayStep where
  | reraise
  | sleep (d : ℚ)
deriving Repr, DecidableEq

def delayUntilRetry (deadline : ℚ) (fallback : Nat → ℚ) (attempt : Nat)
    (hint : Option RetryHint) (now : ℚ) : DelayStep :=
  if deadline ≤ now then .reraise
  else
    let d := match hint with
      | some h => h.delay
      | none => fallback attempt
    if deadline < now + d then .reraise else .sleep d

/-- Modelled from the spec: the run_in_transaction retry loop (spec section
4.7: BEGIN, RUN, then COMMIT or RETRY or FAIL, looping to BEGIN after a
sleep), with google/cloud/spanner_v1/session.py absent from src/.  The
script lists the outcome of each successive attempt; times lists the
successive wall-clock samples consumed when aborts are handled; fallback is
the no-hint backoff schedule, left abstract (spec: doubling with a cap). -/
def runRetryLoop (deadline : ℚ) (fallback : Nat → ℚ) :
    Nat → List ℚ → List AttemptOutcome → Nat → Nat → List ℚ → ExecStats
  | _, _, [], cbs, begins, sleeps => ⟨cbs, begins, sleeps, .noScript⟩
  | attempt, times, o :: rest, cbs, begins, sleeps =>
    match o with
    | .success => ⟨cbs + 1, begins + 1, sleeps, .committed⟩
    | .runAbort begun hint =>
      let begins2 := begins + (if begun then 1 else 0)
      match delayUntilRetry deadline fallback attempt hint (times.headD 0) with
      | .reraise => ⟨cbs + 1, begins2, sleeps, .abortedDeadline hint⟩
      | .sleep d =>
        runRetryLoop deadline fallback (attempt + 1) times.tail rest
          (cbs + 1) begins2 (sleeps ++ [d])
    | .commitAbort hint =>
      match delayUntilRetry deadline fallback attempt hint (times.headD 0) with
      | .reraise => ⟨cbs + 1, begins + 1, sleeps, .abortedDeadline hint⟩
      | .sleep d =>
        runRetryLoop deadline fallback (attempt + 1) times.tail rest
          (cbs + 1) (begins + 1) (sleeps ++ [d])

/-- run_in_transaction entry point: the deadline is the wall-clock start time
plus timeout_secs. -/
def runInTransaction (startTime timeoutSecs : ℚ) (fallback : Nat → ℚ)
    (times : List ℚ) (script : List AttemptOutcome) : ExecStats :=
  runRetryLoop (startTime + timeoutSecs) fallback 1 times script 0 0 []

/-! ## Helper lemmas -/

/-- Inserting into the sorted queue yields a permutation of consing. -/
theorem pqInsert_perm (e : Nat × Session) :
    ∀ l : List (Nat × Session), (pqInsert e l).Perm (e :: l) := by
  intro l
  induction l with
  | nil => simp [pqInsert]
  | cons f rest ih =>
    unfold pqInsert
    by_cases h : f.1 ≤ e.1
    · simp only [h, if_true]
      exact (ih.cons f).trans (List.Perm.swap e f rest)
    · simp [h]

/-- Membership in the result of pqInsert. -/
theorem pqInsert_mem {x e : Nat × Session} :
    ∀ {l : List (Nat × Session)}, x ∈ pqInsert e l → x = e ∨ x ∈ l := by
  intro l
  induction l with
  | nil => simp [pqInsert]
  | cons f rest ih =>
    unfold pqInsert
    by_cases h : f.1 ≤ e.1
    · simp only [h, if_true, List.mem_cons]
      rintro (hx | hx)
      · exact Or.inr (Or.inl hx)
      · rcases ih hx with h1 | h1
        · exact Or.inl h1
        · exact Or.inr (Or.inr h1)
    · simp only [h, if_false, List.mem_cons]
      tauto

/-- pqInsert walks past a block of entries whose keys do not exceed the new
key. -/
theorem pqInsert_append (e : Nat × Session) :
    ∀ (l1 l2 : List (Nat × Session)), (∀ f ∈ l1, f.1 ≤ e.1) →
      pqInsert e (l1 ++ l2) = l1 ++ pqInsert e l2 := by
  intro l1
  induction l1 with
  | nil => intro l2 _; simp
  | cons f rest ih =>
    intro l2 hle
    have hf : f.1 ≤ e.1 := hle f (List.mem_cons_self f rest)
    simp only [List.cons_append, pqInsert, hf, if_true, List.append_eq]
    rw [ih l2 (fun g hg => hle g (List.mem_cons.mpr (Or.inr hg)))]

/-- The ping loop, on a queue split into an overdue part followed by a fresh
part, pings each overdue live session exactly once, creates nothing, and
leaves the backend unchanged. -/
theorem pingLoop_overdue (now delta : Nat) (hdelta : 1 ≤ delta) :
    ∀ (over : List (Nat × Session)) (fresh : List (Nat × Session)) (fuel : Nat)
      (b : Backend) (pings creates : Nat),
      (∀ e ∈ over, e.1 ≤ now) →
      (∀ e ∈ fresh, now < e.1) →
      (∀ e ∈ over, b.live.contains e.2.id = true) →
      over.length < fuel →
      (pingLoop now delta fuel b (over ++ fresh) pings creates).backend = b ∧
      (pingLoop now delta fuel b (over ++ fresh) pings creates).pings =
        pings + over.length ∧
      (pingLoop now delta fuel b (over ++ fresh) pings creates).creates = creates := by
  intro over
  induction over with
  | nil =>
    intro fresh fuel b pings creates _ hfresh _ hfuel
    cases fuel with
    | zero => exact absurd hfuel (by simp)
    | succ f2 =>
      match fresh with
      | [] => simp [pingLoop]
      | (k, s) :: r =>
        have hk : now < k := hfresh (k, s) (List.mem_cons_self _ _)
        simp [pingLoop, hk]
  | cons e over2 ih =>
    intro fresh fuel b pings creates hover hfresh hlive hfuel
    obtain ⟨k, s⟩ := e
    cases fuel with
    | zero => exact absurd hfuel (by simp)
    | succ f2 =>
      have hk : ¬ now < k := Nat.not_lt.mpr (hover (k, s) (List.mem_cons_self _ _))
      have hliveS : b.live.contains s.id = true := hlive (k, s) (List.mem_cons_self _ _)
      have hover2 : ∀ g ∈ over2, g.1 ≤ now :=
        fun g hg => hover g (List.mem_cons.mpr (Or.inr hg))
      have hins : pqInsert (now + delta, s) (over2 ++ fresh) =
          over2 ++ pqInsert (now + delta, s) fresh :=
        pqInsert_append _ _ _ (fun g hg => Nat.le_trans (hover2 g hg) (Nat.le_add_right _ _))
      have hfresh2 : ∀ g ∈ pqInsert (now + delta, s) fresh, now < g.1 := by
        intro g hg
        rcases pqInsert_mem hg with rfl | hmem
        · omega
        · exact hfresh g hmem
      have hstep : pingLoop now delta (f2 + 1) b
          (((k, s) :: over2) ++ fresh) pings creates =
          pingLoop now delta f2 b
            (over2 ++ pqInsert (now + delta, s) fresh) (pings + 1) creates := by
        rw [List.cons_append]
        conv_lhs => unfold pingLoop
        simp only [hk, if_false, Session.pingRPC, hliveS, if_true, hins]
      rw [hstep]
      have hlt : over2.length < f2 := by
        rw [List.length_cons] at hfuel; omega
      have := ih (pqInsert (now + delta, s) fresh) f2 b (pings + 1)
        creates hover2 hfresh2
        (fun g hg => hlive g (List.mem_cons.mpr (Or.inr hg))) hlt
      refine ⟨this.1, ?_, this.2.2⟩
      rw [this.2.1, List.length_cons]
      omega

/-- Putting a list of sessions into a FixedSizePool with enough room pushes
them onto the LIFO stack in order. -/
theorem FixedSizePool.putAll_ok :
    ∀ (l : List Session) (p : FixedSizePool),
      l.length + p.sessions.items.length ≤ p.sessions.maxsize →
      p.putAll l =
        .ok ⟨p.size, p.maxAge, ⟨p.sessions.maxsize, l.reverse ++ p.sessions.items⟩⟩ := by
  intro l
  induction l with
  | nil => intro p _; simp [putAll]
  | cons s rest ih =>
    intro p h
    have hnotfull : ¬ (0 < p.sessions.maxsize ∧
        p.sessions.maxsize ≤ p.sessions.items.length) := by
      rw [List.length_cons] at h; omega
    unfold putAll put LifoQueue.putNowait
    simp only [hnotfull, if_false]
    have := ih ⟨p.size, p.maxAge, ⟨p.sessions.maxsize, s :: p.sessions.items⟩⟩
      (by simp only [List.length_cons] at *; omega)
    rw [this]
    simp

/-- Getting n sessions from a FixedSizePool whose stack starts with n fresh
sessions (idle age below max_age) pops exactly those sessions, in stack
order, touching the backend not at all. -/
theorem FixedSizePool.getAll_fresh :
    ∀ (stk : List Session) (p : FixedSizePool) (post : List Session)
      (now : Nat) (b : Backend),
      p.sessions.items = stk ++ post →
      (∀ s ∈ stk, now - s.lastUse < p.maxAge) →
      p.getAll now b stk.length =
        .ok (stk, ⟨p.size, p.maxAge, ⟨p.sessions.maxsize, post⟩⟩, b) := by
  intro stk
  induction stk with
  | nil =>
    intro p post now b hq _
    simp only [List.length_nil, getAll]
    rw [List.nil_append] at hq
    rw [← hq]
  | cons s rest ih =>
    intro p post now b hq hfresh
    have hcond : ¬ (p.maxAge ≤ now - s.lastUse ∧ b.sessionExists s.id = false) := by
      have := hfresh s (List.mem_cons_self _ _)
      intro hc
      omega
    have hget : p.get now b =
        .ok (s, ⟨p.size, p.maxAge, ⟨p.sessions.maxsize, rest ++ post⟩⟩, b) := by
      unfold get
      rw [hq, List.cons_append]
      simp only [hcond, if_false]
    simp only [List.length_cons, getAll, hget]
    rw [ih ⟨p.size, p.maxAge, ⟨p.sessions.maxsize, rest ++ post⟩⟩ post now b rfl
      (fun t ht => hfresh t (List.mem_cons.mpr (Or.inr ht)))]

/-! ## Claim theorems -/

/-- Claim C2 counterexample: with two queued sessions both past their due time
(due 10 and 20, now 100, both live on the backend), a single call to
PingingPool.ping performs two backend pings, so it does not advance the
health state of at most one session. -/
theorem C2_counterexample_ping_two_overdue :
    (PingingPool.ping ⟨2, 50, [(10, ⟨1, 0, none⟩), (20, ⟨2, 0, none⟩)]⟩
        5 100 ⟨10, [1, 2]⟩).pings = 2 ∧
    ¬ ((PingingPool.ping ⟨2, 50, [(10, ⟨1, 0, none⟩), (20, ⟨2, 0, none⟩)]⟩
        5 100 ⟨10, [1, 2]⟩).pings ≤ 1) := by
  decide

/-- Claim C2 (amended): a single call to PingingPool.ping advances the health
state of every overdue session, not at most one: the while-True loop keeps
popping until the earliest-due entry is fresh or the queue is empty, so with
the queue split into an overdue part followed by a fresh part, all sessions
live, and a positive ping interval, one ping() call performs exactly one
backend ping per overdue entry, creates nothing, and leaves the backend
unchanged. -/
theorem C2_amended_ping_all_overdue (p : PingingPool) (now fuel : Nat) (b : Backend)
    (over fresh : List (Nat × Session))
    (hq : p.sessions = over ++ fresh)
    (hdelta : 1 ≤ p.delta)
    (hover : ∀ e ∈ over, e.1 ≤ now)
    (hfresh : ∀ e ∈ fresh, now < e.1)
    (hlive : ∀ e ∈ over, b.live.contains e.2.id = true)
    (hfuel : over.length < fuel) :
    (p.ping fuel now b).pings = over.length ∧
    (p.ping fuel now b).creates = 0 ∧
    (p.ping fuel now b).backend = b := by
  unfold PingingPool.ping
  rw [hq]
  have := pingLoop_overdue now p.delta hdelta over fresh fuel b 0 0 hover hfresh hlive hfuel
  refine ⟨?_, this.2.2, this.1⟩
  rw [this.2.1]
  omega

/-- Claim C2 amended witness: a queue with two overdue entries and one fresh
entry, all live; one ping() call pings exactly the two overdue sessions. -/
theorem C2_amended_witness :
    (PingingPool.ping ⟨5, 50, [(10, ⟨1, 0, none⟩), (20, ⟨2, 0, none⟩),
        (150, ⟨3, 0, none⟩)]⟩ 3 100 ⟨10, [1, 2, 3]⟩).pings = 2 ∧
    (PingingPool.ping ⟨5, 50, [(10, ⟨1, 0, none⟩), (20, ⟨2, 0, none⟩),
        (150, ⟨3, 0, none⟩)]⟩ 3 100 ⟨10, [1, 2, 3]⟩).creates = 0 ∧
    (PingingPool.ping ⟨5, 50, [(10, ⟨1, 0, none⟩), (20, ⟨2, 0, none⟩),
        (150, ⟨3, 0, none⟩)]⟩ 3 100 ⟨10, [1, 2, 3]⟩).backend = ⟨10, [1, 2, 3]⟩ := by
  have := C2_amended_ping_all_overdue
    ⟨5, 50, [(10, ⟨1, 0, none⟩), (20, ⟨2, 0, none⟩), (150, ⟨3, 0, none⟩)]⟩ 100 3
    ⟨10, [1, 2, 3]⟩ [(10, ⟨1, 0, none⟩), (20, ⟨2, 0, none⟩)] [(150, ⟨3, 0, none⟩)]
    rfl (by decide) (by decide) (by decide) (by decide) (by decide)
  simpa using this

/-- Claim C3: when FixedSizePool.get pops a session whose idle age
(now - last_use_time) is at least max_age and whose backend existence probe
fails, it never returns that session: it returns a freshly created session
with a new backend-assigned identity, distinct from the popped one. -/
theorem C3_fixed_get_replaces_expired (p : FixedSizePool) (now : Nat) (b : Backend)
    (s : Session) (rest : List Session)
    (hq : p.sessions.items = s :: rest)
    (hage : p.maxAge ≤ now - s.lastUse)
    (hdead : b.sessionExists s.id = false)
    (hfresh : s.id < b.nextId) :
    p.get now b =
      .ok (⟨b.nextId, now, none⟩, ⟨p.size, p.maxAge, ⟨p.sessions.maxsize, rest⟩⟩,
        ⟨b.nextId + 1, b.nextId :: b.live⟩) ∧
    (⟨b.nextId, now, none⟩ : Session).id ≠ s.id := by
  constructor
  · unfold FixedSizePool.get
    rw [hq]
    simp [hage, hdead, Backend.createSession]
  · simp only
    omega

/-- Claim C3 witness: a pool holding one session of id 0 last used at time 0,
probed at time 100 with max_age 10, against a backend where it no longer
exists; get returns the fresh session of id 7. -/
theorem C3_witness :
    FixedSizePool.get ⟨1, 10, ⟨1, [⟨0, 0, none⟩]⟩⟩ 100 ⟨7, []⟩ =
      .ok (⟨7, 100, none⟩, ⟨1, 10, ⟨1, []⟩⟩, ⟨8, [7]⟩) ∧
    (⟨7, 100, none⟩ : Session).id ≠ (⟨0, 0, none⟩ : Session).id := by
  exact C3_fixed_get_replaces_expired ⟨1, 10, ⟨1, [⟨0, 0, none⟩]⟩⟩ 100 ⟨7, []⟩
    ⟨0, 0, none⟩ [] rfl (by decide) (by decide) (by decide)

/-- Claim C5: once a SessionCheckout scope has been entered successfully
(pool.get returned a session), leaving the scope by any path — normal
completion or an exception from the wrapped block — calls pool.put with
that same session, and a block exception still propagates. -/
theorem C5_checkout_always_puts {σ α ε : Type} (p : PoolOps σ) (st st1 : σ)
    (s : Session) (body : Session → Except ε α)
    (hget : p.get st = some (s, st1)) :
    withStmt (SessionCheckout p) st body = some (body s, p.put s st1) := by
  unfold withStmt SessionCheckout
  simp only [hget]
  cases body s <;> rfl

/-- Claim C5 witness: a pool over a put-log state; the block raises, and the
final state still records the put of the checked-out session, with the
exception preserved in the result. -/
theorem C5_witness :
    withStmt (SessionCheckout
        (⟨fun st => some (⟨5, 0, none⟩, st), fun s st => st ++ [s.id]⟩ :
          PoolOps (List Nat)))
      [] (fun _ => (.error 7 : Except Nat Nat)) = some (.error 7, [5]) := by
  exact C5_checkout_always_puts
    ⟨fun st => some (⟨5, 0, none⟩, st), fun s st => st ++ [s.id]⟩
    [] [] ⟨5, 0, none⟩ (fun _ => (.error 7 : Except Nat Nat)) rfl

/-- Claim C8: when the earliest-due queue entry of a PingingPool is strictly
in the future, a call to ping() performs zero backend calls (no
session.ping, no create), leaves the backend untouched, and leaves the
queue contents — every (due-time, session) pair — unchanged as a
multiset. -/
theorem C8_ping_fresh_noop (p : PingingPool) (fuel now k : Nat) (s : Session)
    (rest : List (Nat × Session)) (b : Backend)
    (hq : p.sessions = (k, s) :: rest)
    (_hmin : ∀ e ∈ p.sessions, k ≤ e.1)
    (hfut : now < k) :
    (p.ping (fuel + 1) now b).pings = 0 ∧
    (p.ping (fuel + 1) now b).creates = 0 ∧
    (p.ping (fuel + 1) now b).backend = b ∧
    (p.ping (fuel + 1) now b).queue.Perm p.sessions := by
  unfold PingingPool.ping
  rw [hq]
  unfold pingLoop
  simp only [hfut, if_true]
  exact ⟨trivial, trivial, trivial, pqInsert_perm (k, s) rest⟩

/-- Claim C8 witness: a queue whose earliest entry is due at 150, pinged at
time 100: no backend calls, queue contents preserved. -/
theorem C8_witness :
    (PingingPool.ping ⟨2, 50, [(150, ⟨1, 0, none⟩), (200, ⟨2, 0, none⟩)]⟩
        5 100 ⟨10, [1, 2]⟩).pings = 0 ∧
    (PingingPool.ping ⟨2, 50, [(150, ⟨1, 0, none⟩), (200, ⟨2, 0, none⟩)]⟩
        5 100 ⟨10, [1, 2]⟩).creates = 0 ∧
    (PingingPool.ping ⟨2, 50, [(150, ⟨1, 0, none⟩), (200, ⟨2, 0, none⟩)]⟩
        5 100 ⟨10, [1, 2]⟩).backend = ⟨10, [1, 2]⟩ ∧
    (PingingPool.ping ⟨2, 50, [(150, ⟨1, 0, none⟩), (200, ⟨2, 0, none⟩)]⟩
        5 100 ⟨10, [1, 2]⟩).queue.Perm
      [(150, ⟨1, 0, none⟩), (200, ⟨2, 0, none⟩)] := by
  exact C8_ping_fresh_noop ⟨2, 50, [(150, ⟨1, 0, none⟩), (200, ⟨2, 0, none⟩)]⟩
    4 100 150 ⟨1, 0, none⟩ [(200, ⟨2, 0, none⟩)] ⟨10, [1, 2]⟩
    rfl (by decide) (by decide)

/-- Claim C6: FixedSizePool.get returns sessions in strict LIFO order of the
prior puts: for any sequence of puts of fresh sessions into a pool with
room, the subsequent gets return them in reverse put order and restore the
pool; in particular, for a pool of size 2 holding sessions of ids 1 then 2
put in creation order, two gets return id 2 then id 1, and after put of
id 2 then put of id 1 the next get returns id 1. -/
theorem C6_fixed_lifo (p : FixedSizePool) (l : List Session) (now : Nat) (b : Backend)
    (hcap : l.length + p.sessions.items.length ≤ p.sessions.maxsize)
    (hfresh : ∀ s ∈ l, now - s.lastUse < p.maxAge) :
    (∃ p2, p.putAll l = .ok p2 ∧ p2.getAll now b l.length = .ok (l.reverse, p, b)) ∧
    ((FixedSizePool.putAll ⟨2, 55, ⟨2, []⟩⟩ [⟨1, 100, none⟩, ⟨2, 100, none⟩]).bind
        (fun pb => pb.getAll 100 ⟨3, [1, 2]⟩ 2) =
      .ok ([⟨2, 100, none⟩, ⟨1, 100, none⟩], ⟨2, 55, ⟨2, []⟩⟩, ⟨3, [1, 2]⟩)) ∧
    ((FixedSizePool.putAll ⟨2, 55, ⟨2, []⟩⟩ [⟨2, 100, none⟩, ⟨1, 100, none⟩]).bind
        (fun pb => pb.get 100 ⟨3, [1, 2]⟩) =
      .ok (⟨1, 100, none⟩, ⟨2, 55, ⟨2, [⟨2, 100, none⟩]⟩⟩, ⟨3, [1, 2]⟩)) := by
  refine ⟨?_, rfl, rfl⟩
  refine ⟨_, FixedSizePool.putAll_ok l p hcap, ?_⟩
  have := FixedSizePool.getAll_fresh l.reverse
    ⟨p.size, p.maxAge, ⟨p.sessions.maxsize, l.reverse ++ p.sessions.items⟩⟩
    p.sessions.items now b rfl
    (fun t ht => hfresh t (List.mem_reverse.mp ht))
  rw [List.length_reverse] at this
  exact this

/-- Claim C6 witness: the general LIFO theorem instantiated at the concrete
size-2 scenario with the two creation-order sessions. -/
theorem C6_witness :
    (∃ p2, FixedSizePool.putAll ⟨2, 55, ⟨2, []⟩⟩ [⟨1, 100, none⟩, ⟨2, 100, none⟩] =
        .ok p2 ∧
      p2.getAll 100 ⟨3, [1, 2]⟩ 2 =
        .ok ([⟨2, 100, none⟩, ⟨1, 100, none⟩], ⟨2, 55, ⟨2, []⟩⟩, ⟨3, [1, 2]⟩)) := by
  have := C6_fixed_lifo ⟨2, 55, ⟨2, []⟩⟩ [⟨1, 100, none⟩, ⟨2, 100, none⟩] 100
    ⟨3, [1, 2]⟩ (by decide) (by decide)
  simpa using this.1

/-- Claim C7 counterexample: FixedSizePool.clear on a pool holding a session
that no longer exists server-side propagates the NotFound from
session.delete to the caller instead of absorbing it. -/
theorem C7_counterexample_clear_propagates :
    FixedSizePool.clear ⟨5, []⟩ [⟨1, 0, none⟩] = .error .notFound := by
  rfl

/-- Claim C7 (amended): only BurstyPool.put on a full pool absorbs a NotFound
failure from session.delete; the clear methods of FixedSizePool,
BurstyPool, and PingingPool propagate the NotFound to the caller. -/
theorem C7_amended_notfound :
    (∀ (p : BurstyPool) (s : Session) (b : Backend),
      0 < p.sessions.maxsize → p.sessions.maxsize ≤ p.sessions.items.length →
      b.sessionExists s.id = false →
      p.put s b = .ok (p, b)) ∧
    (∀ (b : Backend) (s : Session) (rest : List Session),
      b.sessionExists s.id = false →
      FixedSizePool.clear b (s :: rest) = .error .notFound) ∧
    (∀ (b : Backend) (s : Session) (rest : List Session),
      b.sessionExists s.id = false →
      BurstyPool.clear b (s :: rest) = .error .notFound) ∧
    (∀ (b : Backend) (k : Nat) (s : Session) (rest : List (Nat × Session)),
      b.sessionExists s.id = false →
      PingingPool.clear b ((k, s) :: rest) = .error .notFound) := by
  refine ⟨?_, ?_, ?_, ?_⟩
  · intro p s b hpos hlen hdead
    rw [Backend.sessionExists] at hdead
    have hmem : s.id ∉ b.live := by simpa using hdead
    unfold BurstyPool.put LifoQueue.putNowait Session.delete
    simp [hpos, hlen, hmem]
  · intro b s rest hdead
    rw [Backend.sessionExists] at hdead
    have hmem : s.id ∉ b.live := by simpa using hdead
    unfold FixedSizePool.clear Session.delete
    simp [hmem]
  · intro b s rest hdead
    rw [Backend.sessionExists] at hdead
    have hmem : s.id ∉ b.live := by simpa using hdead
    unfold BurstyPool.clear Session.delete
    simp [hmem]
  · intro b k s rest hdead
    rw [Backend.sessionExists] at hdead
    have hmem : s.id ∉ b.live := by simpa using hdead
    unfold PingingPool.clear Session.delete
    simp [hmem]

/-- Claim C7 amended witness: the four cases of the amended theorem at
concrete dead sessions. -/
theorem C7_amended_witness :
    BurstyPool.put ⟨1, ⟨1, [⟨4, 0, none⟩]⟩⟩ ⟨9, 0, none⟩ ⟨10, []⟩ =
      .ok (⟨1, ⟨1, [⟨4, 0, none⟩]⟩⟩, ⟨10, []⟩) ∧
    FixedSizePool.clear ⟨10, []⟩ [⟨2, 0, none⟩] = .error .notFound ∧
    BurstyPool.clear ⟨10, []⟩ [⟨2, 0, none⟩] = .error .notFound ∧
    PingingPool.clear ⟨10, []⟩ [(7, ⟨2, 0, none⟩)] = .error .notFound := by
  exact ⟨C7_amended_notfound.1 ⟨1, ⟨1, [⟨4, 0, none⟩]⟩⟩ ⟨9, 0, none⟩ ⟨10, []⟩
      (by decide) (by decide) (by decide),
    C7_amended_notfound.2.1 ⟨10, []⟩ ⟨2, 0, none⟩ [] (by decide),
    C7_amended_notfound.2.2.1 ⟨10, []⟩ ⟨2, 0, none⟩ [] (by decide),
    C7_amended_notfound.2.2.2 ⟨10, []⟩ 7 ⟨2, 0, none⟩ [] (by decide)⟩

/-- Claim C9: BurstyPool.put never blocks and never raises: it always returns
successfully; when the pool is already at target_size the session is
deleted (from the backend when it still exists) instead of being queued,
otherwise the session is queued; and the pool size after put never exceeds
target_size. -/
theorem C9_bursty_put_total (p : BurstyPool) (s : Session) (b : Backend)
    (hts : p.sessions.maxsize = p.targetSize)
    (hsz : p.sessions.items.length ≤ p.sessions.maxsize) :
    ∃ p2 b2, p.put s b = .ok (p2, b2) ∧
      ((0 < p.sessions.maxsize ∧ p.sessions.maxsize ≤ p.sessions.items.length) →
        p2 = p ∧ (b.sessionExists s.id = true → b2.live = b.live.erase s.id)) ∧
      (¬ (0 < p.sessions.maxsize ∧ p.sessions.maxsize ≤ p.sessions.items.length) →
        p2.sessions.items = s :: p.sessions.items ∧ b2 = b) ∧
      (0 < p.targetSize → p2.sessions.items.length ≤ p.targetSize) := by
  by_cases hfull : 0 < p.sessions.maxsize ∧ p.sessions.maxsize ≤ p.sessions.items.length
  · refine ⟨p, if b.live.contains s.id then ⟨b.nextId, b.live.erase s.id⟩ else b,
      ?_, ?_, fun h => absurd hfull h, fun _ => by omega⟩
    · unfold BurstyPool.put LifoQueue.putNowait Session.delete
      simp only [hfull, if_true]
      cases hc : b.live.contains s.id <;> simp [hc]
    · intro _
      refine ⟨rfl, fun hex => ?_⟩
      rw [Backend.sessionExists] at hex
      rw [if_pos hex]
  · refine ⟨⟨p.targetSize, ⟨p.sessions.maxsize, s :: p.sessions.items⟩⟩, b,
      ?_, fun h => absurd h hfull, fun _ => ⟨rfl, rfl⟩, fun hpos => ?_⟩
    · unfold BurstyPool.put LifoQueue.putNowait
      simp [hfull]
    · simp only [List.length_cons]
      omega

/-- Claim C9 witness: a full pool of target size 1 receiving a live session;
put succeeds, the session is deleted rather than queued, and the size bound
holds. -/
theorem C9_witness :
    (∃ p2 b2, BurstyPool.put ⟨1, ⟨1, [⟨1, 0, none⟩]⟩⟩ ⟨2, 0, none⟩ ⟨5, [2]⟩ =
        .ok (p2, b2) ∧
      ((0 < (1 : Nat) ∧ (1 : Nat) ≤ ([⟨1, 0, none⟩] : List Session).length) →
        p2 = ⟨1, ⟨1, [⟨1, 0, none⟩]⟩⟩ ∧
        (Backend.sessionExists ⟨5, [2]⟩ 2 = true → b2.live = List.erase [2] 2)) ∧
      (¬ (0 < (1 : Nat) ∧ (1 : Nat) ≤ ([⟨1, 0, none⟩] : List Session).length) →
        p2.sessions.items = ⟨2, 0, none⟩ :: [⟨1, 0, none⟩] ∧ b2 = ⟨5, [2]⟩) ∧
      (0 < (1 : Nat) → p2.sessions.items.length ≤ 1)) := by
  exact C9_bursty_put_total ⟨1, ⟨1, [⟨1, 0, none⟩]⟩⟩ ⟨2, 0, none⟩ ⟨5, [2]⟩
    rfl (by decide)

/-- Claim C10: TransactionPingingPool.put raises queue.Full whenever the
ping queue is at capacity, even when the transaction of the session is
absent, committed, or rolled back and the session would otherwise have been
routed to the unbounded pending-begin FIFO; the raise happens before either
queue is touched, so the caller keeps the unmodified pool. -/
theorem C10_txn_pinging_put_full (p : TransactionPingingPool) (now : Nat) (s : Session)
    (hpos : 0 < p.size) (hfull : p.size ≤ p.sessions.length)
    (_hroute : s.transaction = none ∨
      ∃ t, s.transaction = some t ∧ (t.committed = true ∨ t.rolledBack = true)) :
    p.put now s = .error .queueFull := by
  unfold TransactionPingingPool.put
  simp [hpos, hfull]

/-- Claim C10 witness: a full ping queue of size 1 and a session with no
transaction attached; put raises queue.Full. -/
theorem C10_witness :
    TransactionPingingPool.put ⟨1, 5, [(3, ⟨1, 0, none⟩)], []⟩ 10 ⟨2, 0, none⟩ =
      .error .queueFull := by
  exact C10_txn_pinging_put_full ⟨1, 5, [(3, ⟨1, 0, none⟩)], []⟩ 10 ⟨2, 0, none⟩
    (by decide) (by decide) (Or.inl rfl)

/-- Claim C1 counterexample: a run in which the callback raises Aborted on
attempt 1 without having begun the transaction on the backend and succeeds
on attempt 2 (the scenario of
test_run_in_transaction_w_callback_raises_abort_wo_metadata, whose
begin_transaction mock is asserted called exactly once): the callback runs
exactly twice, yet the number of backend begin-transaction calls is 1, not
the number of attempts. -/
theorem C1_counterexample_begin_calls :
    (runInTransaction 0 120 (fun _ => 1) [0]
        [.runAbort false (some ⟨1, 3456⟩), .success]).callbackCalls = 2 ∧
    (runInTransaction 0 120 (fun _ => 1) [0]
        [.runAbort false (some ⟨1, 3456⟩), .success]).beginCalls = 1 ∧
    (runInTransaction 0 120 (fun _ => 1) [0]
        [.runAbort false (some ⟨1, 3456⟩), .success]).beginCalls ≠ 2 := by
  have hd : delayUntilRetry ((0 : ℚ) + 120) (fun _ => 1) 1 (some ⟨1, 3456⟩) 0 =
      .sleep (RetryHint.delay ⟨1, 3456⟩) := by
    unfold delayUntilRetry
    rw [if_neg (by norm_num)]
    simp only
    rw [if_neg (by norm_num [RetryHint.delay])]
  have hrun : runInTransaction 0 120 (fun _ => 1) [0]
      [.runAbort false (some ⟨1, 3456⟩), .success] =
      ⟨2, 1, [RetryHint.delay ⟨1, 3456⟩], .committed⟩ := by
    unfold runInTransaction runRetryLoop
    simp only [List.headD, hd]
    simp [runRetryLoop]
  rw [hrun]
  refine ⟨rfl, rfl, by decide⟩

/-- Claim C1 (amended): when the callback raises a conflict on attempt 1 and
succeeds on attempt 2 (with room left before the deadline), the executor
invokes the callback exactly twice, and the number of backend
begin-transaction calls equals the number of attempts in which the
transaction was actually begun on the backend: two when the callback had
begun it before aborting, one when attempt 1 aborted before any begin (the
begin then happens only at the commit of attempt 2). -/
theorem C1_amended_begin_calls (startTime timeoutSecs now : ℚ) (fallback : Nat → ℚ)
    (begun : Bool) (h : RetryHint)
    (h1 : now < startTime + timeoutSecs)
    (h2 : now + RetryHint.delay h ≤ startTime + timeoutSecs) :
    runInTransaction startTime timeoutSecs fallback [now]
        [.runAbort begun (some h), .success] =
      ⟨2, (if begun then 1 else 0) + 1, [RetryHint.delay h], .committed⟩ := by
  have hd : delayUntilRetry (startTime + timeoutSecs) fallback 1 (some h) now =
      .sleep (RetryHint.delay h) := by
    unfold delayUntilRetry
    rw [if_neg (not_le.mpr h1)]
    simp only
    rw [if_neg (not_lt.mpr h2)]
  unfold runInTransaction runRetryLoop
  simp only [List.headD, hd]
  simp [runRetryLoop]

/-- Claim C1 amended witness: the amended theorem at a callback that begins
the transaction on attempt 1 before aborting; two attempts, two begin
calls. -/
theorem C1_amended_witness :
    runInTransaction 0 120 (fun _ => 1) [0]
        [.runAbort true (some ⟨1, 3456⟩), .success] =
      ⟨2, 2, [RetryHint.delay ⟨1, 3456⟩], .committed⟩ := by
  have := C1_amended_begin_calls 0 120 0 (fun _ => 1) true ⟨1, 3456⟩
    (by norm_num) (by norm_num [RetryHint.delay])
  simpa using this

/-- Claim C4: when the executor handles a conflict carrying a structured
retry hint (retry_seconds, retry_nanos) with room before the deadline, the
delay it sleeps equals exactly retry_seconds + retry_nanos / 1e9 seconds;
and when the wall-clock sample taken on handling the conflict has already
reached the configured deadline (start + timeout_secs), the conflict is
re-raised unmodified (same hint) without sleeping. -/
theorem C4_retry_delay_and_deadline :
    (∀ (startTime timeoutSecs now : ℚ) (fallback : Nat → ℚ) (h : RetryHint),
      now < startTime + timeoutSecs →
      now + RetryHint.delay h ≤ startTime + timeoutSecs →
      runInTransaction startTime timeoutSecs fallback [now]
          [.commitAbort (some h), .success] =
        ⟨2, 2, [(h.seconds : ℚ) + (h.nanos : ℚ) / 1000000000], .committed⟩) ∧
    (∀ (startTime timeoutSecs now : ℚ) (fallback : Nat → ℚ)
      (hint : Option RetryHint) (rest : List AttemptOutcome),
      startTime + timeoutSecs ≤ now →
      runInTransaction startTime timeoutSecs fallback [now]
          (.commitAbort hint :: rest) = ⟨1, 1, [], .abortedDeadline hint⟩) := by
  constructor
  · intro startTime timeoutSecs now fallback h h1 h2
    have hd : delayUntilRetry (startTime + timeoutSecs) fallback 1 (some h) now =
        .sleep (RetryHint.delay h) := by
      unfold delayUntilRetry
      rw [if_neg (not_le.mpr h1)]
      simp only
      rw [if_neg (not_lt.mpr h2)]
    unfold runInTransaction runRetryLoop
    simp only [List.headD, hd]
    simp [runRetryLoop, RetryHint.delay]
  · intro startTime timeoutSecs now fallback hint rest h1
    have hd : delayUntilRetry (startTime + timeoutSecs) fallback 1 hint now =
        .reraise := by
      unfold delayUntilRetry
      rw [if_pos h1]
    unfold runInTransaction runRetryLoop
    simp only [List.headD, hd]

/-- Claim C4 witness: a (12 s, 3456 ns) hint produces a sleep of exactly
12 + 3456e-9 seconds, and a conflict handled past the deadline is re-raised
with its hint and no sleep. -/
theorem C4_witness :
    runInTransaction 0 100 (fun _ => 1) [1]
        [.commitAbort (some ⟨12, 3456⟩), .success] =
      ⟨2, 2, [((12 : Nat) : ℚ) + ((3456 : Nat) : ℚ) / 1000000000], .committed⟩ ∧
    runInTransaction 1 1 (fun _ => 1) [3]
        [.commitAbort (some ⟨1, 3456⟩), .success] =
      ⟨1, 1, [], .abortedDeadline (some ⟨1, 3456⟩)⟩ := by
  constructor
  · exact C4_retry_delay_and_deadline.1 0 100 1 (fun _ => 1) ⟨12, 3456⟩
      (by norm_num) (by norm_num [RetryHint.delay])
  · exact C4_retry_delay_and_deadline.2 1 1 3 (fun _ => 1) (some ⟨1, 3456⟩)
      [.success] (by norm_num)

end Spanner
